import Mathlib

/-!
Verification of the `resource` Go package (resource lifetime tracking).

The package tracks resource lifetimes: `Track(resource, h)` files the handle
`h` into a pprof profile named after the resource's type, captures the caller
stack, and arms a `runtime.AddCleanup` registration that panics if the
resource becomes unreachable before `Untrack(resource, h)` is called.
`Untrack` atomically swaps the handle's cleanup token out, stops it, keeps the
resource alive across the swap, and removes the handle from the profile.

The development embeds the source in two complementary ways:
* a sequential functional embedding (`Track`, `Untrack`, `buildPanicMsg`)
  over an explicit tracker state holding the pprof profiles, the handle
  records and the cleanup-token states; and
* a small-step concurrent embedding (`Step`) of one tracked session, splitting
  `Untrack` at its atomic points (swap, Stop, KeepAlive, Lookup, Remove) and
  adding garbage-collection steps (dropping the last external reference, and
  firing the cleanup callback), used for the race-related properties.

External collaborators are modelled by their documented contracts:
`runtime/pprof` profiles are maps from values to stacks (`Add` panics on a
duplicate value, `Remove` deletes and is a no-op on a missing value,
`Lookup` is `none` for a name that was never created); `runtime.Callers(skip)`
returns the current stack with `skip` leading frames dropped (index 0 being
`Callers` itself and index 1 its caller); `runtime.AddCleanup` registrations
fire at most once, only while the object is unreachable, and never after
`Stop`; `runtime.KeepAlive(resource)` keeps the resource reachable up to that
program point. Panics are modelled as `Except.error` with the panic message.
-/

/-- A symbolised stack frame, as produced by `runtime.CallersFrames`:
function name, file and line.  The embedding stores frames directly where the
Go code stores program counters (`[]uintptr`), folding the external
symbolisation step into the data. -/
structure Frame where
  function : String
  file : String
  line : Nat
deriving DecidableEq

/-- State of one `runtime.Cleanup` registration: armed (will fire when the
object is unreachable), stopped (cancelled by `Stop`), or fired (the cleanup
function has run). -/
inductive TokState where
  | armed
  | stopped
  | fired
deriving DecidableEq

/-- `runtime.Cleanup.Stop`: disarms an armed registration and does nothing on
a registration that was already stopped or has already run. -/
def stopTok : TokState → TokState
  | .armed => .stopped
  | .stopped => .stopped
  | .fired => .fired

/-- The `Handle` struct of the source: cleanup token (`c`, an
`atomic.Pointer[runtime.Cleanup]`, modelled as an optional token id), the
resource type string (`typ`), the pprof profile name (`profile`) and the
captured acquisition stack (`pcs`, `none` for a nil slice). -/
structure Handle where
  c : Option Nat := none
  typ : String := ""
  profile : String := ""
  pcs : Option (List Frame) := none
deriving DecidableEq

/-- One line pair of the panic message, `fmt.Sprintf("%s\n\t%s:%d\n", ...)`:
the frame's function, then a tab-indented `file:line`. -/
def frameLine (f : Frame) : String :=
  f.function ++ "\n\t" ++ f.file ++ ":" ++ toString f.line ++ "\n"

/-- The `for { frame, more := frames.Next(); ...; if !more { break } }` loop of
`buildPanicMsg`.  `runtime.CallersFrames` on an empty slice yields one zero
`Frame` with `more = false`, so the loop body runs at least once. -/
def framesLoop : List Frame → String
  | [] => frameLine ⟨"", "", 0⟩
  | [f] => frameLine f
  | f :: g :: t => frameLine f ++ framesLoop (g :: t)

/-- `Handle.buildPanicMsg`: the type name plus a fixed sentence, and, when a
stack was captured (`h.pcs != nil`), the header line and one `frameLine` per
frame. -/
def buildPanicMsg (h : Handle) : String :=
  match h.pcs with
  | none => h.typ ++ " became unreachable without being released!"
  | some l =>
      h.typ ++ " became unreachable without being released!"
        ++ "\nIt started being tracked at:\n" ++ framesLoop l

/-- Concatenation of the per-frame line pairs. -/
def frameLines (l : List Frame) : String :=
  (l.map frameLine).foldr (· ++ ·) ""

/-- The fixed pprof namespace, `pprofPrefix = "resource/"` in the source. -/
def pprofNS : String := "resource/"

/-- `profileName`: the pprof profile (registry group) name for a resource
pointer, `pprofPrefix + reflect.TypeOf(resource).Elem().String()`.  `tn` is
the element type's fully qualified name (e.g. `"resource.Resource"`). -/
def profileName (tn : String) : String := pprofNS ++ tn

/-- `reflect.TypeOf(resource).String()` for `resource : *T`: the pointer
type's string, which is the element type name with a leading `*`. -/
def ptrTypeString (tn : String) : String := "*" ++ tn

/-- `pprof.Lookup` over the profile table, modelled as an association list
from profile name to the list of member handle ids (`pprof.Profile.m` keys,
insertion-ordered). -/
def plookup : List (String × List Nat) → String → Option (List Nat)
  | [], _ => none
  | p :: ps, n => if p.1 = n then some p.2 else plookup ps n

/-- `pprof.NewProfile`: registers a new, empty profile under the given name. -/
def pcreate (ps : List (String × List Nat)) (n : String) :
    List (String × List Nat) :=
  ps ++ [(n, [])]

/-- The mutation of `pprof.Profile.Add` on the member map: record the value
under the (unique) key `n`.  The duplicate-value panic is handled at the call
site in `Track`. -/
def paddMember : List (String × List Nat) → String → Nat → List (String × List Nat)
  | [], _, _ => []
  | p :: ps, n, i => if p.1 = n then (p.1, i :: p.2) :: ps else p :: paddMember ps n i

/-- `pprof.Profile.Remove`: delete the value from the profile's member map;
a no-op when the value is not a member. -/
def premoveMember : List (String × List Nat) → String → Nat → List (String × List Nat)
  | [], _, _ => []
  | p :: ps, n, i =>
      if p.1 = n then (p.1, p.2.filter (fun j => j ≠ i)) :: ps
      else p :: premoveMember ps n i

/-- The member list of a profile (empty for a profile that does not exist). -/
def pmembers (ps : List (String × List Nat)) (n : String) : List Nat :=
  (plookup ps n).getD []

/-- Process-wide state touched by `Track`/`Untrack`: the pprof profile table,
the handle records (total over handle ids; a fresh id holds the Go zero
value), the cleanup-registration states and the allocation counters. -/
structure TrackerState where
  profs : List (String × List Nat)
  handles : Nat → Handle
  tokens : Nat → TokState
  nextTok : Nat
  nextHandle : Nat

/-- The initial process state: no profiles, all handles fresh (Go zero value,
as after `NewHandle`), no cleanup registrations. -/
def init0 : TrackerState :=
  ⟨[], fun _ => ⟨none, "", "", none⟩, fun _ => .stopped, 0, 0⟩

/-- `Track[T](resource *T, h *Handle)`, sequentially.  `rawStack` is the
machine call stack at the `runtime.Callers` call inside `Track` (index 0 =
the `Callers` frame, index 1 = `Track` itself, index 2 = `Track`'s caller);
`tn` is `T`'s fully qualified name; `resource` and `hid` are the two pointer
arguments (`none` = nil).  `pprofEnabled` and `collectStack` are the constant
`true` of the source.  A panic is returned as `Except.error` with the panic
message. -/
def Track (rawStack : List Frame) (st : TrackerState) (resource : Option Unit)
    (tn : String) (hid : Option Nat) : Except String TrackerState :=
  match resource with
  | none => .error "resource must not be nil"
  | some _ =>
    match hid with
    | none => .error "handle must not be nil"
    | some i =>
      let profile := profileName tn
      -- fast-path Lookup, then create-if-absent (the double-checked lock
      -- collapses to a single check sequentially)
      let profs1 :=
        match plookup st.profs profile with
        | some _ => st.profs
        | none => pcreate st.profs profile
      -- p.Add(h, 2): panics if the value is already in the profile
      if i ∈ pmembers profs1 profile then
        .error ("pprof: Profile.Add of duplicate value " ++ profile)
      else
        .ok
          { profs := paddMember profs1 profile i
            handles := fun j =>
              if j = i then
                { c := some st.nextTok          -- runtime.AddCleanup token
                  typ := ptrTypeString tn       -- reflect.TypeOf(resource).String()
                  profile := profile
                  pcs := some ((rawStack.drop 2).take 32) }  -- runtime.Callers(2, stk[:32])
              else st.handles j
            tokens := fun j => if j = st.nextTok then .armed else st.tokens j
            nextTok := st.nextTok + 1
            nextHandle := st.nextHandle }

/-- `Untrack[T](resource *T, h *Handle)`, sequentially: nil checks, atomic
`h.c.Swap(nil)` followed by `Stop` on a live token, `runtime.KeepAlive`
(a no-op sequentially), then `pprof.Lookup(h.profile)` (panic if `nil`) and
`p.Remove(h)`. -/
def Untrack (st : TrackerState) (resource : Option Unit) (hid : Option Nat) :
    Except String TrackerState :=
  match resource with
  | none => .error "resource must not be nil"
  | some _ =>
    match hid with
    | none => .error "handle must not be nil"
    | some i =>
      let h0 := st.handles i
      let tokens' : Nat → TokState :=
        match h0.c with
        | some t => fun j => if j = t then stopTok (st.tokens j) else st.tokens j
        | none => st.tokens
      match plookup st.profs h0.profile with
      | none => .error "resource is not tracked"
      | some _ =>
        .ok
          { profs := premoveMember st.profs h0.profile i
            handles := fun j => if j = i then { h0 with c := none } else st.handles j
            tokens := tokens'
            nextTok := st.nextTok
            nextHandle := st.nextHandle }

/-- Whether a call panicked. -/
def isErr : Except String TrackerState → Bool
  | .error _ => true
  | .ok _ => false

/-- The state after `Track`ing handle 0 as a resource of type `pkg.A` on a
fresh process. -/
def stA : TrackerState :=
  (Track [] init0 (some ()) "pkg.A" (some 0)).toOption.getD init0

/-- The state after `Track`ing handle 0 as a `*resource.Resource` on a fresh
process. -/
def stR : TrackerState :=
  (Track [] init0 (some ()) "resource.Resource" (some 0)).toOption.getD init0

def frameCallers : Frame := ⟨"runtime.Callers", "extern.go", 260⟩

def frameTrack : Frame := ⟨"resource.Track", "handle.go", 170⟩

def frameCaller : Frame := ⟨"main.NewThing", "main.go", 42⟩

/-- The state after `Track`ing handle 0 with a three-frame machine stack. -/
def stC : TrackerState :=
  (Track [frameCallers, frameTrack, frameCaller] init0 (some ())
    "main.Thing" (some 0)).toOption.getD init0

/-- The state after `Untrack`ing handle 0 from `stA`. -/
def stB : TrackerState :=
  (Untrack stA (some ()) (some 0)).toOption.getD init0

/-- One client operation: `NewHandle()` followed by `Track` of a resource of
type `tn` (the handle id is the next fresh id), or `Untrack` of the handle
with a given id (together with its resource). -/
inductive Op where
  | track (tn : String)
  | untrack (i : Nat)
deriving DecidableEq

/-- Run one operation against the tracker state. -/
def execOp (st : TrackerState) : Op → Except String TrackerState
  | .track tn =>
      Track [] { st with nextHandle := st.nextHandle + 1 } (some ()) tn
        (some st.nextHandle)
  | .untrack i => Untrack st (some ()) (some i)

/-- Run a sequence of operations, stopping at the first panic. -/
def exec : TrackerState → List Op → Except String TrackerState
  | st, [] => .ok st
  | st, op :: ops =>
      match execOp st op with
      | .ok st' => exec st' ops
      | .error e => .error e

/-- Modelled from the claim's words, for comparison with the code: the ideal
ledger of currently tracked-but-not-yet-untracked (handle id, type name)
pairs, together with the next fresh handle id.  `track` adds a fresh pair,
`untrack` removes the pair with that id. -/
def ledgerStep : List (Nat × String) × Nat → Op → List (Nat × String) × Nat
  | (l, n), .track tn => ((n, tn) :: l, n + 1)
  | (l, n), .untrack i => (l.filter (fun p => p.1 ≠ i), n)

/-- The ideal ledger after a whole operation sequence. -/
def ledger (ops : List Op) : List (Nat × String) × Nat :=
  ops.foldl ledgerStep ([], 0)

/-- Well-formed use: each `untrack` names a currently tracked handle
(`Track`/`Untrack` come in matching pairs). -/
def wfFrom : List (Nat × String) × Nat → List Op → Bool
  | _, [] => true
  | a, .track tn :: ops => wfFrom (ledgerStep a (.track tn)) ops
  | a, .untrack i :: ops =>
      a.1.any (fun p => p.1 = i) && wfFrom (ledgerStep a (.untrack i)) ops

/-- Well-formed from the initial state. -/
def wf (ops : List Op) : Bool := wfFrom ([], 0) ops

/-- The membership count of the registry group for type `tn`. -/
def groupSize (st : TrackerState) (tn : String) : Nat :=
  (pmembers st.profs (profileName tn)).length

/-- Simulation invariant between the tracker state and the ideal ledger:
handle ids are fresh and unique, each tracked handle records its group key,
every group of a tracked type exists, and each group's member list is
exactly the ids of the currently tracked handles of that type. -/
def SimRel (st : TrackerState) (l : List (Nat × String)) (n : Nat) : Prop :=
  st.nextHandle = n ∧
  (∀ p ∈ l, p.1 < n) ∧
  (l.map Prod.fst).Nodup ∧
  (∀ p ∈ l, (st.handles p.1).profile = profileName p.2) ∧
  (∀ p ∈ l, (plookup st.profs (profileName p.2)).isSome = true) ∧
  (∀ tn, pmembers st.profs (profileName tn) =
    (l.filter (fun p => p.2 = tn)).map Prod.fst)

/-- State of one tracked session (one resource, one handle) under concurrent
`Untrack` calls and garbage collection, abstracting the threads to counters:
all `Untrack` callers run the same code, so the state records how many are at
each control point of `Untrack`'s body.  `T`/`F` distinguish callers whose
atomic `Swap` returned the live cleanup token (`T`) from those that got nil
(`F`). -/
structure CState where
  /-- `h.c` still holds the cleanup token (no swap has taken it yet). -/
  cIn : Bool
  /-- state of the session's single cleanup registration -/
  tok : TokState
  /-- some reference other than the active `Untrack` arguments still keeps
  the resource reachable -/
  ext : Bool
  /-- the pprof profile named `h.profile` exists (created by `Track`) -/
  profExists : Bool
  /-- the handle is a member of its profile -/
  hIn : Bool
  /-- members of the profile other than this handle -/
  others : Nat
  /-- callers about to execute `h.c.Swap(nil)` (nil checks passed) -/
  nSwap : Nat
  /-- callers that won the swap, about to call `Stop` -/
  nStopT : Nat
  /-- callers whose swap returned nil, at the same point -/
  nStopF : Nat
  /-- callers past `Stop`, about to pass `runtime.KeepAlive(resource)` -/
  nKAT : Nat
  nKAF : Nat
  /-- callers past `KeepAlive`, about to `pprof.Lookup(h.profile)` -/
  nLookT : Nat
  nLookF : Nat
  /-- callers past the lookup, about to `p.Remove(h)` -/
  nRemT : Nat
  nRemF : Nat
  /-- callers that returned -/
  nDoneT : Nat
  nDoneF : Nat
  /-- callers that panicked at the lookup -/
  nPanic : Nat
deriving DecidableEq

/-- Callers at or past the swap point (their swap has happened). -/
def pastSwap (s : CState) : Nat :=
  s.nStopT + s.nStopF + s.nKAT + s.nKAF + s.nLookT + s.nLookF +
    s.nRemT + s.nRemF + s.nDoneT + s.nDoneF + s.nPanic

/-- Callers that have not yet executed `runtime.KeepAlive(resource)`: their
`resource` argument keeps the resource reachable. -/
def preKA (s : CState) : Nat :=
  s.nSwap + s.nStopT + s.nStopF + s.nKAT + s.nKAF

/-- Callers that hold the token (won the swap), wherever they are. -/
def tCount (s : CState) : Nat :=
  s.nStopT + s.nKAT + s.nLookT + s.nRemT + s.nDoneT

/-- All callers that ever started. -/
def totalThreads (s : CState) : Nat := s.nSwap + pastSwap s

/-- Callers still inside `Untrack` (neither returned nor panicked). -/
def active (s : CState) : Nat :=
  s.nSwap + s.nStopT + s.nStopF + s.nKAT + s.nKAF + s.nLookT + s.nLookF +
    s.nRemT + s.nRemF

/-- The resource is reachable while some other reference holds it or some
`Untrack` caller has not yet passed `runtime.KeepAlive`. -/
def reachable (s : CState) : Bool :=
  s.ext || decide (0 < preKA s)

/-- The membership count of the session's profile. -/
def cGroupCount (s : CState) : Nat :=
  s.others + (if s.hIn then 1 else 0)

/-- The state right after `Track` returned: the token is stored in `h.c` and
armed, the profile exists and holds the handle (plus `o` other members), the
caller still references the resource, and no `Untrack` has started. -/
def cinit (o : Nat) : CState :=
  { cIn := true, tok := .armed, ext := true, profExists := true, hIn := true,
    others := o, nSwap := 0, nStopT := 0, nStopF := 0, nKAT := 0, nKAF := 0,
    nLookT := 0, nLookF := 0, nRemT := 0, nRemF := 0, nDoneT := 0, nDoneF := 0,
    nPanic := 0 }

/-- Interleaving semantics of concurrent `Untrack` calls against garbage
collection for one tracked session.  Caller steps follow `Untrack`'s body
line by line; `dropExt` is the environment dropping its last reference;
`fire` is the collector running the cleanup (`runtime.AddCleanup` fires only
while the object is unreachable and only if the registration is still
armed); the cleanup function itself only panics with the diagnostic message
and touches neither the handle nor the profile. -/
inductive Step : CState → CState → Prop where
  | start (s : CState) (h : reachable s = true) :
      Step s { s with nSwap := s.nSwap + 1 }
  | swapT (s : CState) (h : 0 < s.nSwap) (hc : s.cIn = true) :
      Step s { s with nSwap := s.nSwap - 1, nStopT := s.nStopT + 1, cIn := false }
  | swapF (s : CState) (h : 0 < s.nSwap) (hc : s.cIn = false) :
      Step s { s with nSwap := s.nSwap - 1, nStopF := s.nStopF + 1 }
  | stopT (s : CState) (h : 0 < s.nStopT) :
      Step s { s with nStopT := s.nStopT - 1, nKAT := s.nKAT + 1, tok := stopTok s.tok }
  | stopF (s : CState) (h : 0 < s.nStopF) :
      Step s { s with nStopF := s.nStopF - 1, nKAF := s.nKAF + 1 }
  | kaT (s : CState) (h : 0 < s.nKAT) :
      Step s { s with nKAT := s.nKAT - 1, nLookT := s.nLookT + 1 }
  | kaF (s : CState) (h : 0 < s.nKAF) :
      Step s { s with nKAF := s.nKAF - 1, nLookF := s.nLookF + 1 }
  | lookOkT (s : CState) (h : 0 < s.nLookT) (hp : s.profExists = true) :
      Step s { s with nLookT := s.nLookT - 1, nRemT := s.nRemT + 1 }
  | lookOkF (s : CState) (h : 0 < s.nLookF) (hp : s.profExists = true) :
      Step s { s with nLookF := s.nLookF - 1, nRemF := s.nRemF + 1 }
  | lookPanicT (s : CState) (h : 0 < s.nLookT) (hp : s.profExists = false) :
      Step s { s with nLookT := s.nLookT - 1, nPanic := s.nPanic + 1 }
  | lookPanicF (s : CState) (h : 0 < s.nLookF) (hp : s.profExists = false) :
      Step s { s with nLookF := s.nLookF - 1, nPanic := s.nPanic + 1 }
  | remT (s : CState) (h : 0 < s.nRemT) :
      Step s { s with nRemT := s.nRemT - 1, nDoneT := s.nDoneT + 1, hIn := false }
  | remF (s : CState) (h : 0 < s.nRemF) :
      Step s { s with nRemF := s.nRemF - 1, nDoneF := s.nDoneF + 1, hIn := false }
  | dropExt (s : CState) :
      Step s { s with ext := false }
  | fire (s : CState) (hr : reachable s = false) (ht : s.tok = .armed) :
      Step s { s with tok := .fired }

/-- Reachable states of one session with `o` other profile members. -/
def CReach (o : Nat) (s : CState) : Prop :=
  Relation.ReflTransGen Step (cinit o) s

/-- Inductive invariant of the session. -/
def CInv (o : Nat) (s : CState) : Prop :=
  s.profExists = true ∧
  s.nPanic = 0 ∧
  s.others = o ∧
  (s.cIn = true → pastSwap s = 0) ∧
  tCount s = (if s.cIn then 0 else 1) ∧
  (s.tok = .armed → s.cIn = true ∨ 0 < s.nStopT) ∧
  (s.tok = .fired → s.ext = false ∧ s.nSwap = 0 ∧ pastSwap s = 0) ∧
  (s.hIn = false → 0 < s.nDoneT + s.nDoneF) ∧
  (0 < s.nDoneT + s.nDoneF → s.hIn = false)

/-- Intermediate states of one completed `Untrack` after `Track` (no other
profile members): start, winning swap, `Stop`, `KeepAlive`, lookup, remove. -/
def c1 : CState := { cinit 0 with nSwap := 1 }

def c2 : CState := { c1 with nSwap := 0, nStopT := 1, cIn := false }

def c3 : CState := { c2 with nStopT := 0, nKAT := 1, tok := .stopped }

def c4 : CState := { c3 with nKAT := 0, nLookT := 1 }

def c5 : CState := { c4 with nLookT := 0, nRemT := 1 }

def cDone : CState := { c5 with nRemT := 0, nDoneT := 1, hIn := false }

/-- Intermediate states of a second, losing `Untrack` call after the first
one completed. -/
def d1 : CState := { cDone with nSwap := 1 }

def d2 : CState := { d1 with nSwap := 0, nStopF := 1 }

def d3 : CState := { d2 with nStopF := 0, nKAF := 1 }

def d4 : CState := { d3 with nKAF := 0, nLookF := 1 }

def d5 : CState := { d4 with nLookF := 0, nRemF := 1 }

def dDone : CState := { d5 with nRemF := 0, nDoneF := 1, hIn := false }

theorem framesLoop_eq_frameLines (l : List Frame) (hne : l ≠ []) :
    framesLoop l = frameLines l := by
  induction l with
  | nil => exact absurd rfl hne
  | cons f t ih =>
      cases t with
      | nil => simp [framesLoop, frameLines]
      | cons g t' =>
          simp only [framesLoop, frameLines, List.map, List.foldr]
          rw [ih (by simp)]
          rfl

/-- Claim C6: for every handle, `buildPanicMsg` returns a string whose first
line is `<TypeName> became unreachable without being released!`; if an
acquisition stack was captured, the next line is
`It started being tracked at:` followed by one pair of lines per frame (the
function name, then a tab-indented `file:line`); if no stack was captured the
message is the first line only, with no frame lines. -/
theorem buildPanicMsg_format (h : Handle) :
    (h.pcs = none →
      buildPanicMsg h = h.typ ++ " became unreachable without being released!") ∧
    (∀ l, h.pcs = some l → l ≠ [] →
      buildPanicMsg h =
        h.typ ++ " became unreachable without being released!"
          ++ "\nIt started being tracked at:\n" ++ frameLines l) := by
  constructor
  · intro hp
    simp [buildPanicMsg, hp]
  · intro l hp hne
    simp [buildPanicMsg, hp, framesLoop_eq_frameLines l hne]

theorem buildPanicMsg_format_witness :
    buildPanicMsg ⟨none, "resource.Resource", "", none⟩ =
      "resource.Resource became unreachable without being released!" ∧
    buildPanicMsg ⟨none, "resource.Resource", "",
        some [⟨"main.main", "main.go", 10⟩]⟩ =
      "resource.Resource became unreachable without being released!"
        ++ "\nIt started being tracked at:\n"
        ++ "main.main\n\tmain.go:10\n" := by
  constructor
  · exact (buildPanicMsg_format ⟨none, "resource.Resource", "", none⟩).1 rfl
  · have := (buildPanicMsg_format
      ⟨none, "resource.Resource", "", some [⟨"main.main", "main.go", 10⟩]⟩).2
      [⟨"main.main", "main.go", 10⟩] rfl (by simp)
    rw [this]
    rfl

/-- Claim C4 (code bug): for a non-nil resource and a non-nil, freshly
created handle on which `Track` was never called, `Untrack` panics with
`"resource is not tracked"`: the fresh handle's `profile` field is the empty
string and `pprof.Lookup("")` is nil.  The failure behavior (the cleanup
callback) is not invoked, but the call crashes, contradicting the claim and
the repository's own test `TestTrackUntrack/UntrackWithoutTrack`, which calls
`Untrack` on a never-tracked handle and expects it to return normally. -/
theorem untrack_never_tracked_panics :
    Untrack init0 (some ()) (some 0) = .error "resource is not tracked" := rfl

theorem profileName_inj {a b : String} (h : profileName a = profileName b) :
    a = b := by
  have hd : (pprofNS ++ a).data = (pprofNS ++ b).data := congrArg String.data h
  rw [String.data_append, String.data_append] at hd
  exact String.ext (List.append_cancel_left hd)

theorem plookup_pcreate_self (ps : List (String × List Nat)) (n : String)
    (h : plookup ps n = none) : plookup (pcreate ps n) n = some [] := by
  induction ps with
  | nil => simp [pcreate, plookup]
  | cons p ps ih =>
      simp only [plookup] at h
      by_cases hp : p.1 = n
      · simp [hp] at h
      · simp only [pcreate, List.cons_append, plookup, if_neg hp] at h ⊢
        exact ih h

theorem plookup_pcreate_ne (ps : List (String × List Nat)) (n m : String)
    (h : m ≠ n) : plookup (pcreate ps n) m = plookup ps m := by
  induction ps with
  | nil => simp [pcreate, plookup, Ne.symm h]
  | cons p ps ih =>
      by_cases hp : p.1 = m
      · simp [pcreate, plookup, hp]
      · simp only [pcreate, List.cons_append, plookup, if_neg hp] at ih ⊢
        exact ih

theorem plookup_paddMember_self (ps : List (String × List Nat)) (n : String)
    (i : Nat) (l : List Nat) (h : plookup ps n = some l) :
    plookup (paddMember ps n i) n = some (i :: l) := by
  induction ps with
  | nil => simp [plookup] at h
  | cons p ps ih =>
      simp only [plookup] at h
      by_cases hp : p.1 = n
      · simp only [if_pos hp] at h
        cases h
        simp [paddMember, hp, plookup]
      · simp only [if_neg hp] at h
        simp [paddMember, hp, plookup, ih h]

theorem plookup_paddMember_ne (ps : List (String × List Nat)) (n : String)
    (i : Nat) (m : String) (h : m ≠ n) :
    plookup (paddMember ps n i) m = plookup ps m := by
  induction ps with
  | nil => simp [paddMember, plookup]
  | cons p ps ih =>
      by_cases hp : p.1 = n
      · have hm : ¬p.1 = m := fun hc => h (hc.symm.trans hp)
        simp [paddMember, hp, plookup, hm, Ne.symm h]
      · by_cases hm : p.1 = m
        · simp [paddMember, hp, plookup, hm, h]
        · simp [paddMember, hp, plookup, hm, ih, h]

theorem plookup_premoveMember_self (ps : List (String × List Nat)) (n : String)
    (i : Nat) (l : List Nat) (h : plookup ps n = some l) :
    plookup (premoveMember ps n i) n = some (l.filter (fun j => j ≠ i)) := by
  induction ps with
  | nil => simp [plookup] at h
  | cons p ps ih =>
      simp only [plookup] at h
      by_cases hp : p.1 = n
      · simp only [if_pos hp] at h
        cases h
        simp [premoveMember, hp, plookup]
      · simp only [if_neg hp] at h
        simp [premoveMember, hp, plookup, ih h]

theorem plookup_premoveMember_ne (ps : List (String × List Nat)) (n : String)
    (i : Nat) (m : String) (h : m ≠ n) :
    plookup (premoveMember ps n i) m = plookup ps m := by
  induction ps with
  | nil => simp [premoveMember, plookup]
  | cons p ps ih =>
      by_cases hp : p.1 = n
      · have hm : ¬p.1 = m := fun hc => h (hc.symm.trans hp)
        simp [premoveMember, hp, plookup, hm, Ne.symm h]
      · by_cases hm : p.1 = m
        · simp [premoveMember, hp, plookup, hm, h]
        · simp [premoveMember, hp, plookup, hm, ih, h]

/-- The duplicate check of `p.Add` inside `Track` sees the same members
whether the profile already existed or was just created empty. -/
theorem pmembers_after_create (ps : List (String × List Nat)) (n : String) :
    pmembers
      (match plookup ps n with
       | some _ => ps
       | none => pcreate ps n) n = pmembers ps n := by
  cases h : plookup ps n with
  | some l => simp
  | none => simp [pmembers, h, plookup_pcreate_self ps n h]

/-- Claim C3, amended: `Track` panics if and only if the resource is nil, the
handle is nil, or the handle is already a member of the registry group of the
resource's type (double-tracking with the *same* resource type, detected by
`pprof.Profile.Add`'s duplicate-value panic).  Double-tracking a handle under
a different resource type is not detected and completes normally. -/
theorem track_error_iff (stk : List Frame) (st : TrackerState)
    (r : Option Unit) (tn : String) (hid : Option Nat) :
    isErr (Track stk st r tn hid) = true ↔
      r = none ∨ hid = none ∨
        ∃ i, hid = some i ∧ i ∈ pmembers st.profs (profileName tn) := by
  cases r with
  | none => simp [Track, isErr]
  | some u =>
    cases hid with
    | none => simp [Track, isErr]
    | some i =>
      cases hp : plookup st.profs (profileName tn) with
      | none =>
          have h0 : pmembers st.profs (profileName tn) = [] := by
            simp [pmembers, hp]
          have h1 : pmembers (pcreate st.profs (profileName tn))
              (profileName tn) = [] := by
            simp [pmembers, plookup_pcreate_self _ _ hp]
          simp [Track, hp, h1, h0, isErr]
      | some ms =>
          by_cases hdup : i ∈ pmembers st.profs (profileName tn)
          · simp only [Track, hp]
            rw [if_pos hdup]
            exact iff_of_true rfl (Or.inr (Or.inr ⟨i, rfl, hdup⟩))
          · simp only [Track, hp]
            rw [if_neg hdup]
            refine iff_of_false (by simp [isErr]) ?_
            rintro (hr | hh | ⟨i', hi', hmem⟩)
            · exact Option.noConfusion hr
            · exact Option.noConfusion hh
            · cases hi'
              exact hdup hmem

theorem track_error_iff_witness :
    isErr (Track [] init0 none "resource.Resource" (some 0)) = true :=
  (track_error_iff [] init0 none "resource.Resource" (some 0)).mpr (Or.inl rfl)

/-- Claim C3, counterexample to the claim as stated: handle 0 is already
tracked (its cleanup token is live and armed after a completed `Track`), yet
a second `Track` of the same handle with a resource of a *different* type
does not panic: the duplicate check lives in `pprof.Profile.Add`, and the
second call adds the handle to a different profile. -/
theorem track_double_track_no_panic :
    Track [] init0 (some ()) "pkg.A" (some 0) = .ok stA ∧
    (stA.handles 0).c = some 0 ∧
    stA.tokens 0 = .armed ∧
    isErr (Track [] stA (some ()) "pkg.B" (some 0)) = false := by
  refine ⟨rfl, rfl, rfl, ?_⟩
  rfl

/-- Claim C7 (code bug): `Track` files the resource under the group key
`"resource/" + Elem().String()` but stores
`h.typ = reflect.TypeOf(resource).String()`, the *pointer* type string with a
leading `*`.  The group key therefore does not equal the prefix followed by
the recorded `typ`.  The repository's own tests pin the intended `typ`
without the star: `TestStacks` expects the first panic-message line
`resource.Resource became unreachable without being released!` and `Example`
expects the output `resource.Resource wasn't released!`, both of which fail
with the pointer string. -/
theorem track_typ_mismatch :
    Track [] init0 (some ()) "resource.Resource" (some 0) = .ok stR ∧
    (stR.handles 0).profile = "resource/resource.Resource" ∧
    (stR.handles 0).typ = "*resource.Resource" ∧
    (stR.handles 0).profile ≠ pprofNS ++ (stR.handles 0).typ := by
  refine ⟨rfl, rfl, rfl, ?_⟩
  decide

/-- Claim C8: with stack capture enabled, `Track` stores into `h.pcs` the
call stack starting at `Track`'s caller — `runtime.Callers(2, ...)` skips the
`Callers` frame (index 0) and `Track`'s own frame (index 1) — truncated to 32
frames.  In particular, when the machine stack decomposes as
`callersFrame :: trackFrame :: caller :: rest`, the first captured frame is
`caller`, the frame of the `Track` call site, so its file and line are those
of the `Track` call. -/
theorem track_stack_capture (stk : List Frame) (st st' : TrackerState)
    (tn : String) (i : Nat)
    (hok : Track stk st (some ()) tn (some i) = .ok st') :
    (st'.handles i).pcs = some ((stk.drop 2).take 32) ∧
    (∀ c0 c1 caller rest, stk = c0 :: c1 :: caller :: rest →
      ((st'.handles i).pcs.getD []).head? = some caller) := by
  simp only [Track] at hok
  split at hok
  · exact absurd hok (by simp)
  · cases hok
    refine ⟨by simp, ?_⟩
    intro c0 c1 caller rest hstk
    subst hstk
    simp

theorem track_stack_capture_witness :
    (stC.handles 0).pcs = some [frameCaller] ∧
    ((stC.handles 0).pcs.getD []).head? = some frameCaller := by
  have h := track_stack_capture [frameCallers, frameTrack, frameCaller]
    init0 stC "main.Thing" 0 rfl
  exact ⟨h.1.trans (by rfl), h.2 frameCallers frameTrack frameCaller [] rfl⟩

/-- Claim C10: every successful `Untrack` changes only the handle's
cancellation token (cleared to nil) and the registry-group membership (the
handle is deleted from its profile's member map): the handle's `typ`,
`profile` (group key) and `pcs` (acquisition stack) fields are unchanged, no
other handle is touched, and the profile table changes exactly by the
removal. -/
theorem untrack_frame (st st' : TrackerState) (i : Nat)
    (hok : Untrack st (some ()) (some i) = .ok st') :
    (st'.handles i).typ = (st.handles i).typ ∧
    (st'.handles i).profile = (st.handles i).profile ∧
    (st'.handles i).pcs = (st.handles i).pcs ∧
    (st'.handles i).c = none ∧
    (∀ j, j ≠ i → st'.handles j = st.handles j) ∧
    st'.profs = premoveMember st.profs (st.handles i).profile i := by
  simp only [Untrack] at hok
  split at hok
  · exact absurd hok (by simp)
  · cases hok
    refine ⟨by simp, by simp, by simp, by simp, ?_, by simp⟩
    intro j hj
    simp [hj]

theorem untrack_frame_witness :
    Untrack stA (some ()) (some 0) = .ok stB ∧
    (stB.handles 0).typ = (stA.handles 0).typ ∧
    (stB.handles 0).profile = (stA.handles 0).profile ∧
    (stB.handles 0).pcs = (stA.handles 0).pcs ∧
    (stB.handles 0).c = none := by
  have h := untrack_frame stA stB 0 rfl
  exact ⟨rfl, h.1, h.2.1, h.2.2.1, h.2.2.2.1⟩

theorem map_fst_filter_key (l : List (Nat × String)) (q : Nat → Bool) :
    (l.filter (fun p => q p.1)).map Prod.fst = (l.map Prod.fst).filter q := by
  induction l with
  | nil => rfl
  | cons p t ih =>
      by_cases hq : q p.1 <;> simp [List.filter_cons, hq, ih]

theorem filter_swap (l : List (Nat × String)) (p q : Nat × String → Bool) :
    (l.filter p).filter q = (l.filter q).filter p := by
  induction l with
  | nil => rfl
  | cons a t ih =>
      by_cases hp : p a <;> by_cases hq : q a <;>
        simp [List.filter_cons, hp, hq, ih]

theorem nodup_keys_snd_eq (l : List (Nat × String))
    (hnd : (l.map Prod.fst).Nodup) (a : Nat) (b c : String)
    (h1 : (a, b) ∈ l) (h2 : (a, c) ∈ l) : b = c := by
  induction l with
  | nil => cases h1
  | cons qh t ih =>
      simp only [List.map_cons, List.nodup_cons] at hnd
      obtain ⟨hq, hnd'⟩ := hnd
      cases List.mem_cons.mp h1 with
      | inl hb =>
          cases List.mem_cons.mp h2 with
          | inl hc =>
              have hbc : (a, b) = (a, c) := hb.trans hc.symm
              exact (Prod.mk.injEq a b a c ▸ hbc).2
          | inr hc =>
              have hq1 : qh.1 = a := by rw [← hb]
              exact absurd (List.mem_map_of_mem Prod.fst hc) (hq1 ▸ hq)
      | inr hb =>
          cases List.mem_cons.mp h2 with
          | inl hc =>
              have hq1 : qh.1 = a := by rw [← hc]
              exact absurd (List.mem_map_of_mem Prod.fst hb) (hq1 ▸ hq)
          | inr hc => exact ih hnd' hb hc

theorem Track_eq_some (stk : List Frame) (st : TrackerState) (tn : String)
    (i : Nat) (ms : List Nat)
    (hp : plookup st.profs (profileName tn) = some ms) (hdup : i ∉ ms) :
    Track stk st (some ()) tn (some i) = .ok
      { profs := paddMember st.profs (profileName tn) i
        handles := fun j =>
          if j = i then
            { c := some st.nextTok, typ := ptrTypeString tn,
              profile := profileName tn, pcs := some ((stk.drop 2).take 32) }
          else st.handles j
        tokens := fun j => if j = st.nextTok then .armed else st.tokens j
        nextTok := st.nextTok + 1
        nextHandle := st.nextHandle } := by
  have hms : pmembers st.profs (profileName tn) = ms := by simp [pmembers, hp]
  simp [Track, hp, hms, hdup]

theorem Track_eq_none (stk : List Frame) (st : TrackerState) (tn : String)
    (i : Nat) (hp : plookup st.profs (profileName tn) = none) :
    Track stk st (some ()) tn (some i) = .ok
      { profs := paddMember (pcreate st.profs (profileName tn)) (profileName tn) i
        handles := fun j =>
          if j = i then
            { c := some st.nextTok, typ := ptrTypeString tn,
              profile := profileName tn, pcs := some ((stk.drop 2).take 32) }
          else st.handles j
        tokens := fun j => if j = st.nextTok then .armed else st.tokens j
        nextTok := st.nextTok + 1
        nextHandle := st.nextHandle } := by
  have h1 : pmembers (pcreate st.profs (profileName tn)) (profileName tn) = [] := by
    simp [pmembers, plookup_pcreate_self _ _ hp]
  simp [Track, hp, h1]

theorem track_rel_aux (st : TrackerState) (l : List (Nat × String))
    (tn : String) (profs1 : List (String × List Nat))
    (hpl1 : plookup profs1 (profileName tn) =
      some (pmembers st.profs (profileName tn)))
    (hne1 : ∀ m, m ≠ profileName tn → plookup profs1 m = plookup st.profs m)
    (hbound : ∀ p ∈ l, p.1 < st.nextHandle)
    (hnodup : (l.map Prod.fst).Nodup)
    (hhp : ∀ p ∈ l, (st.handles p.1).profile = profileName p.2)
    (hsome : ∀ p ∈ l, (plookup st.profs (profileName p.2)).isSome = true)
    (hmem : ∀ tn', pmembers st.profs (profileName tn') =
      (l.filter (fun p => p.2 = tn')).map Prod.fst) :
    SimRel
      { profs := paddMember profs1 (profileName tn) st.nextHandle
        handles := fun j =>
          if j = st.nextHandle then
            { c := some st.nextTok, typ := ptrTypeString tn,
              profile := profileName tn, pcs := some [] }
          else st.handles j
        tokens := fun j => if j = st.nextTok then .armed else st.tokens j
        nextTok := st.nextTok + 1
        nextHandle := st.nextHandle + 1 }
      ((st.nextHandle, tn) :: l) (st.nextHandle + 1) := by
  refine ⟨rfl, ?_, ?_, ?_, ?_, ?_⟩
  · intro p hp'
    cases List.mem_cons.mp hp' with
    | inl he => subst he; simp
    | inr ht => exact Nat.lt_succ_of_lt (hbound p ht)
  · simp only [List.map_cons, List.nodup_cons]
    refine ⟨?_, hnodup⟩
    intro hin
    obtain ⟨p, hpmem, hpeq⟩ := List.mem_map.mp hin
    have := hbound p hpmem
    omega
  · intro p hp'
    cases List.mem_cons.mp hp' with
    | inl he => subst he; simp
    | inr ht =>
        have hne : p.1 ≠ st.nextHandle := Nat.ne_of_lt (hbound p ht)
        simp only [hne, if_false]
        exact hhp p ht
  · intro p hp'
    cases List.mem_cons.mp hp' with
    | inl he =>
        subst he
        simp [plookup_paddMember_self _ _ _ _ hpl1]
    | inr ht =>
        by_cases hk : profileName p.2 = profileName tn
        · rw [hk, plookup_paddMember_self _ _ _ _ hpl1]
          rfl
        · rw [plookup_paddMember_ne _ _ _ _ hk, hne1 _ hk]
          exact hsome p ht
  · intro tn'
    by_cases htr : tn' = tn
    · subst htr
      rw [pmembers, plookup_paddMember_self _ _ _ _ hpl1, Option.getD_some]
      have hf : ((st.nextHandle, tn') :: l).filter (fun p => p.2 = tn') =
          (st.nextHandle, tn') :: l.filter (fun p => p.2 = tn') := by
        simp [List.filter_cons]
      rw [hf, List.map_cons]
      congr 1
      simpa [pmembers] using hmem tn'
    · have hk : profileName tn' ≠ profileName tn :=
        fun hk' => htr (profileName_inj hk')
      rw [pmembers, plookup_paddMember_ne _ _ _ _ hk, hne1 _ hk]
      have hf : ((st.nextHandle, tn) :: l).filter (fun p => p.2 = tn') =
          l.filter (fun p => p.2 = tn') := by
        simp [List.filter_cons, Ne.symm htr]
      rw [hf]
      simpa [pmembers] using hmem tn'

theorem track_rel (st : TrackerState) (l : List (Nat × String)) (n : Nat)
    (tn : String) (hr : SimRel st l n) :
    ∃ st', execOp st (.track tn) = .ok st' ∧ SimRel st' ((n, tn) :: l) (n + 1) := by
  obtain ⟨hn, hbound, hnodup, hhp, hsome, hmem⟩ := hr
  subst hn
  cases hp : plookup st.profs (profileName tn) with
  | some ms =>
      have hms : pmembers st.profs (profileName tn) = ms := by
        simp [pmembers, hp]
      have hfresh : st.nextHandle ∉ ms := by
        intro hin
        have hin' : st.nextHandle ∈ pmembers st.profs (profileName tn) := by
          rw [hms]; exact hin
        rw [hmem tn] at hin'
        obtain ⟨p, hpmem, hpeq⟩ := List.mem_map.mp hin'
        have := hbound p (List.mem_of_mem_filter hpmem)
        omega
      refine ⟨_, Track_eq_some [] { st with nextHandle := st.nextHandle + 1 }
        tn st.nextHandle ms hp hfresh, ?_⟩
      exact track_rel_aux st l tn st.profs (by rw [hp, hms])
        (fun m _ => rfl) hbound hnodup hhp hsome hmem
  | none =>
      refine ⟨_, Track_eq_none [] { st with nextHandle := st.nextHandle + 1 }
        tn st.nextHandle hp, ?_⟩
      exact track_rel_aux st l tn (pcreate st.profs (profileName tn))
        (by rw [plookup_pcreate_self _ _ hp]; simp [pmembers, hp])
        (fun m hm => plookup_pcreate_ne _ _ _ hm) hbound hnodup hhp hsome hmem

theorem untrack_rel (st : TrackerState) (l : List (Nat × String)) (n : Nat)
    (i : Nat) (hr : SimRel st l n) (hex : ∃ tni, (i, tni) ∈ l) :
    ∃ st', execOp st (.untrack i) = .ok st' ∧
      SimRel st' (l.filter (fun p => p.1 ≠ i)) n := by
  obtain ⟨hn, hbound, hnodup, hhp, hsome, hmem⟩ := hr
  subst hn
  obtain ⟨tni, hmi⟩ := hex
  have hprof : (st.handles i).profile = profileName tni := hhp (i, tni) hmi
  have hsm := hsome (i, tni) hmi
  cases hpl : plookup st.profs (profileName tni) with
  | none => rw [hpl] at hsm; simp at hsm
  | some ms =>
      have heq : Untrack st (some ()) (some i) = .ok
          { profs := premoveMember st.profs (profileName tni) i
            handles := fun j =>
              if j = i then { st.handles i with c := none } else st.handles j
            tokens :=
              match (st.handles i).c with
              | some t => fun j => if j = t then stopTok (st.tokens j) else st.tokens j
              | none => st.tokens
            nextTok := st.nextTok
            nextHandle := st.nextHandle } := by
        simp [Untrack, hprof, hpl]
      refine ⟨_, heq, rfl, ?_, ?_, ?_, ?_, ?_⟩
      · intro p hp'
        exact hbound p (List.mem_of_mem_filter hp')
      · have hsub : List.Sublist (l.filter (fun p => p.1 ≠ i)) l :=
          List.filter_sublist l
        exact List.Nodup.sublist (hsub.map Prod.fst) hnodup
      · intro p hp'
        have hpm := List.mem_of_mem_filter hp'
        have hpne : p.1 ≠ i := by simpa using List.of_mem_filter hp'
        simp only [hpne, if_false]
        exact hhp p hpm
      · intro p hp'
        have hpm := List.mem_of_mem_filter hp'
        by_cases hk : profileName p.2 = profileName tni
        · rw [hk, plookup_premoveMember_self _ _ _ _ hpl]
          rfl
        · rw [plookup_premoveMember_ne _ _ _ _ hk]
          exact hsome p hpm
      · intro tn'
        by_cases htr : tn' = tni
        · subst htr
          have hms : ms = (l.filter (fun p => p.2 = tn')).map Prod.fst := by
            have := hmem tn'
            rw [pmembers, hpl] at this
            simpa using this
          rw [pmembers, plookup_premoveMember_self _ _ _ _ hpl, Option.getD_some,
            hms, filter_swap]
          exact (map_fst_filter_key _ _).symm
        · have hk : profileName tn' ≠ profileName tni :=
            fun hk' => htr (profileName_inj hk')
          rw [pmembers, plookup_premoveMember_ne _ _ _ _ hk]
          have hid : (l.filter (fun p => p.1 ≠ i)).filter (fun p => p.2 = tn') =
              l.filter (fun p => p.2 = tn') := by
            rw [filter_swap]
            apply List.filter_eq_self.mpr
            intro p hp'
            have hpm := List.mem_of_mem_filter hp'
            have hp2 : p.2 = tn' := by simpa using List.of_mem_filter hp'
            by_cases hpi : p.1 = i
            · exfalso
              have hpin : (i, p.2) ∈ l := by
                rw [← hpi]
                simpa using hpm
              have := nodup_keys_snd_eq l hnodup i p.2 tni hpin hmi
              exact htr (hp2 ▸ this)
            · simpa using hpi
          rw [hid]
          simpa [pmembers] using hmem tn'

theorem exec_rel (ops : List Op) : ∀ (st : TrackerState)
    (l : List (Nat × String)) (n : Nat), SimRel st l n →
    wfFrom (l, n) ops = true →
    ∃ st', exec st ops = .ok st' ∧
      SimRel st' (ops.foldl ledgerStep (l, n)).1 (ops.foldl ledgerStep (l, n)).2 := by
  induction ops with
  | nil =>
      intro st l n hr _
      exact ⟨st, rfl, hr⟩
  | cons op ops ih =>
      intro st l n hr hwf
      cases op with
      | track tn =>
          simp only [wfFrom] at hwf
          obtain ⟨st1, he, hr1⟩ := track_rel st l n tn hr
          obtain ⟨st', he', hr'⟩ := ih st1 ((n, tn) :: l) (n + 1) hr1 hwf
          refine ⟨st', ?_, ?_⟩
          · simp only [exec, he]
            exact he'
          · simpa [ledgerStep] using hr'
      | untrack i =>
          simp only [wfFrom, Bool.and_eq_true] at hwf
          obtain ⟨hany, hwf'⟩ := hwf
          have hex : ∃ tni, (i, tni) ∈ l := by
            obtain ⟨p, hpmem, hpeq⟩ := List.any_eq_true.mp hany
            have hpi : p.1 = i := by simpa using hpeq
            exact ⟨p.2, by rw [← hpi]; simpa using hpmem⟩
          obtain ⟨st1, he, hr1⟩ := untrack_rel st l n i hr hex
          obtain ⟨st', he', hr'⟩ := ih st1 (l.filter (fun p => p.1 ≠ i)) n hr1 hwf'
          refine ⟨st', ?_, ?_⟩
          · simp only [exec, he]
            exact he'
          · simpa [ledgerStep] using hr'

theorem length_filter_ne_of_nodup (ms : List Nat) (i : Nat)
    (hnd : ms.Nodup) (hin : i ∈ ms) :
    (ms.filter (fun j => j ≠ i)).length = ms.length - 1 := by
  induction ms with
  | nil => cases hin
  | cons a t ih =>
      simp only [List.nodup_cons] at hnd
      obtain ⟨hat, hndt⟩ := hnd
      cases List.mem_cons.mp hin with
      | inl hia =>
          subst hia
          have hf : t.filter (fun j => j ≠ i) = t := by
            apply List.filter_eq_self.mpr
            intro x hx
            simp only [decide_eq_true_eq]
            intro hxi
            exact hat (hxi ▸ hx)
          simp [List.filter_cons, hf]
          intro a ha hai
          exact hat (hai ▸ ha)
      | inr hit =>
          have hai : a ≠ i := fun ha => hat (ha ▸ hit)
          have hlen : 0 < t.length := List.length_pos_of_mem hit
          have hih := ih hndt hit
          simp [List.filter_cons, hai]
          simp at hih
          omega

/-- Claim C5: every `Track` of a resource of type `tn` grows the membership
count of `tn`'s registry group by exactly one; every matching `Untrack`
(of a tracked member, in a well-formed state) shrinks it by exactly one; and
along every interleaving of well-formed `Track`/`Untrack` pairs the count of
each type's group equals the number of currently
tracked-but-not-yet-untracked resources of that type (the ideal ledger). -/
theorem group_count_invariant :
    (∀ (stk : List Frame) (st st' : TrackerState) (tn : String) (i : Nat),
      Track stk st (some ()) tn (some i) = .ok st' →
      groupSize st' tn = groupSize st tn + 1) ∧
    (∀ (st st' : TrackerState) (i : Nat) (tn : String),
      Untrack st (some ()) (some i) = .ok st' →
      (st.handles i).profile = profileName tn →
      (pmembers st.profs (profileName tn)).Nodup →
      i ∈ pmembers st.profs (profileName tn) →
      groupSize st' tn = groupSize st tn - 1) ∧
    (∀ ops : List Op, wf ops = true →
      ∃ st, exec init0 ops = .ok st ∧
        ∀ tn, groupSize st tn =
          ((ledger ops).1.filter (fun p => p.2 = tn)).length) := by
  refine ⟨?_, ?_, ?_⟩
  · intro stk st st' tn i hok
    simp only [Track] at hok
    split at hok
    · exact absurd hok (by simp)
    · cases hok
      cases hp : plookup st.profs (profileName tn) with
      | some ms =>
          simp only [groupSize, hp]
          rw [pmembers, pmembers, plookup_paddMember_self _ _ _ _ hp, hp]
          simp
      | none =>
          have h0 : pmembers st.profs (profileName tn) = [] := by
            simp [pmembers, hp]
          simp only [groupSize, hp]
          rw [pmembers,
            plookup_paddMember_self _ _ _ _ (plookup_pcreate_self _ _ hp), h0]
          simp
  · intro st st' i tn hok hprof hnd hin
    cases hpl : plookup st.profs (profileName tn) with
    | none =>
        rw [pmembers, hpl] at hin
        simp at hin
    | some ms =>
        have hms : pmembers st.profs (profileName tn) = ms := by
          simp [pmembers, hpl]
        rw [hms] at hin hnd
        simp only [Untrack] at hok
        split at hok
        · exact absurd hok (by simp)
        · cases hok
          simp only [groupSize, hprof]
          rw [pmembers, plookup_premoveMember_self _ _ _ _ hpl, Option.getD_some,
            hms]
          exact length_filter_ne_of_nodup ms i hnd hin
  · intro ops hwf
    have hr0 : SimRel init0 [] 0 := by
      refine ⟨rfl, ?_, ?_, ?_, ?_, ?_⟩
      · intro p hp
        cases hp
      · simp
      · intro p hp
        cases hp
      · intro p hp
        cases hp
      · intro tn
        simp [pmembers, plookup, init0]
    obtain ⟨st, he, hrel⟩ := exec_rel ops init0 [] 0 hr0 hwf
    refine ⟨st, he, ?_⟩
    intro tn
    rw [groupSize, ledger, hrel.2.2.2.2.2 tn, List.length_map]

theorem group_count_invariant_witness :
    groupSize stA "pkg.A" = groupSize init0 "pkg.A" + 1 ∧
    groupSize stB "pkg.A" = groupSize stA "pkg.A" - 1 ∧
    (∃ st, exec init0 [Op.track "pkg.A", Op.track "pkg.A", Op.untrack 0] = .ok st ∧
      ∀ tn, groupSize st tn =
        ((ledger [Op.track "pkg.A", Op.track "pkg.A", Op.untrack 0]).1.filter
          (fun p => p.2 = tn)).length) := by
  refine ⟨?_, ?_, ?_⟩
  · exact group_count_invariant.1 [] init0 stA "pkg.A" 0 rfl
  · exact group_count_invariant.2.1 stA stB 0 "pkg.A" rfl rfl (by decide) (by decide)
  · exact group_count_invariant.2.2 _ (by decide)

theorem inv_init (o : Nat) : CInv o (cinit o) := by
  refine ⟨rfl, rfl, rfl, fun _ => rfl, rfl, fun _ => Or.inl rfl, ?_, ?_, ?_⟩
  · intro h
    cases h
  · intro h
    cases h
  · intro h
    simp [cinit] at h

theorem inv_step (o : Nat) {s s' : CState} (hi : CInv o s) (hs : Step s s') :
    CInv o s' := by
  obtain ⟨h1, h2, h3, h4, h5, h6, h7, h8, h9⟩ := hi
  cases hs with
  | start hr =>
      refine ⟨h1, h2, h3, h4, h5, h6, ?_, h8, h9⟩
      intro ht
      exfalso
      obtain ⟨he, hn, hp⟩ := h7 ht
      simp only [reachable, he, Bool.false_or, decide_eq_true_eq, preKA] at hr
      simp only [pastSwap] at hp
      omega
  | swapT h hc =>
      refine ⟨h1, h2, h3, ?_, ?_, ?_, ?_, h8, h9⟩
      · intro hcc
        simp at hcc
      · have h5' := h5
        simp [hc] at h5'
        simp [tCount] at h5' ⊢
        omega
      · intro ht
        right
        simp
      · intro ht
        exfalso
        obtain ⟨he, hn, hp⟩ := h7 ht
        omega
  | swapF h hc =>
      refine ⟨h1, h2, h3, ?_, ?_, ?_, ?_, h8, h9⟩
      · intro hcc
        simp only [hc] at hcc
        cases hcc
      · have h5' := h5
        simp [hc] at h5'
        simp [tCount, hc] at h5' ⊢
        omega
      · intro ht
        cases h6 ht with
        | inl hl => rw [hc] at hl; cases hl
        | inr hrr => exact Or.inr hrr
      · intro ht
        exfalso
        obtain ⟨he, hn, hp⟩ := h7 ht
        omega
  | stopT h =>
      refine ⟨h1, h2, h3, ?_, ?_, ?_, ?_, h8, h9⟩
      · intro hcc
        exfalso
        have h4' := h4 hcc
        simp only [pastSwap] at h4'
        omega
      · cases hcin : s.cIn with
        | true =>
            exfalso
            have h4' := h4 hcin
            simp only [pastSwap] at h4'
            omega
        | false =>
            have h5' := h5
            simp [hcin] at h5'
            simp [tCount, hcin] at h5' ⊢
            omega
      · intro ht
        exfalso
        cases htok : s.tok <;> rw [htok] at ht <;> simp [stopTok] at ht
      · intro ht
        exfalso
        have htok : s.tok = .fired := by
          cases htok : s.tok
          · rw [htok] at ht
            simp [stopTok] at ht
          · rw [htok] at ht
            simp [stopTok] at ht
          · rfl
        obtain ⟨he, hn, hp⟩ := h7 htok
        simp only [pastSwap] at hp
        omega
  | stopF h =>
      refine ⟨h1, h2, h3, ?_, h5, h6, ?_, h8, h9⟩
      · intro hcc
        exfalso
        have h4' := h4 hcc
        simp only [pastSwap] at h4'
        omega
      · intro ht
        exfalso
        obtain ⟨he, hn, hp⟩ := h7 ht
        simp only [pastSwap] at hp
        omega
  | kaT h =>
      refine ⟨h1, h2, h3, ?_, ?_, h6, ?_, h8, h9⟩
      · intro hcc
        exfalso
        have h4' := h4 hcc
        simp only [pastSwap] at h4'
        omega
      · cases hcin : s.cIn with
        | true =>
            exfalso
            have h4' := h4 hcin
            simp only [pastSwap] at h4'
            omega
        | false =>
            have h5' := h5
            simp [hcin] at h5'
            simp [tCount, hcin] at h5' ⊢
            omega
      · intro ht
        exfalso
        obtain ⟨he, hn, hp⟩ := h7 ht
        simp only [pastSwap] at hp
        omega
  | kaF h =>
      refine ⟨h1, h2, h3, ?_, h5, h6, ?_, h8, h9⟩
      · intro hcc
        exfalso
        have h4' := h4 hcc
        simp only [pastSwap] at h4'
        omega
      · intro ht
        exfalso
        obtain ⟨he, hn, hp⟩ := h7 ht
        simp only [pastSwap] at hp
        omega
  | lookOkT h hp =>
      refine ⟨h1, h2, h3, ?_, ?_, h6, ?_, h8, h9⟩
      · intro hcc
        exfalso
        have h4' := h4 hcc
        simp only [pastSwap] at h4'
        omega
      · cases hcin : s.cIn with
        | true =>
            exfalso
            have h4' := h4 hcin
            simp only [pastSwap] at h4'
            omega
        | false =>
            have h5' := h5
            simp [hcin] at h5'
            simp [tCount, hcin] at h5' ⊢
            omega
      · intro ht
        exfalso
        obtain ⟨he, hn, hpp⟩ := h7 ht
        simp only [pastSwap] at hpp
        omega
  | lookOkF h hp =>
      refine ⟨h1, h2, h3, ?_, h5, h6, ?_, h8, h9⟩
      · intro hcc
        exfalso
        have h4' := h4 hcc
        simp only [pastSwap] at h4'
        omega
      · intro ht
        exfalso
        obtain ⟨he, hn, hpp⟩ := h7 ht
        simp only [pastSwap] at hpp
        omega
  | lookPanicT h hp =>
      rw [h1] at hp
      cases hp
  | lookPanicF h hp =>
      rw [h1] at hp
      cases hp
  | remT h =>
      refine ⟨h1, h2, h3, ?_, ?_, h6, ?_, ?_, ?_⟩
      · intro hcc
        exfalso
        have h4' := h4 hcc
        simp only [pastSwap] at h4'
        omega
      · cases hcin : s.cIn with
        | true =>
            exfalso
            have h4' := h4 hcin
            simp only [pastSwap] at h4'
            omega
        | false =>
            have h5' := h5
            simp [hcin] at h5'
            simp [tCount, hcin] at h5' ⊢
            omega
      · intro ht
        exfalso
        obtain ⟨he, hn, hpp⟩ := h7 ht
        simp only [pastSwap] at hpp
        omega
      · intro _
        simp
      · intro _
        rfl
  | remF h =>
      refine ⟨h1, h2, h3, ?_, h5, h6, ?_, ?_, ?_⟩
      · intro hcc
        exfalso
        have h4' := h4 hcc
        simp only [pastSwap] at h4'
        omega
      · intro ht
        exfalso
        obtain ⟨he, hn, hpp⟩ := h7 ht
        simp only [pastSwap] at hpp
        omega
      · intro _
        simp
      · intro _
        rfl
  | dropExt =>
      refine ⟨h1, h2, h3, h4, h5, h6, ?_, h8, h9⟩
      intro ht
      obtain ⟨he, hn, hp⟩ := h7 ht
      exact ⟨rfl, hn, hp⟩
  | fire hr ht =>
      have hext : s.ext = false := by
        simp only [reachable, Bool.or_eq_false_iff] at hr
        exact hr.1
      have hpre : preKA s = 0 := by
        simp only [reachable, Bool.or_eq_false_iff, decide_eq_false_iff_not] at hr
        omega
      have hcin : s.cIn = true := by
        cases h6 ht with
        | inl hl => exact hl
        | inr hrr =>
            exfalso
            simp only [preKA] at hpre
            omega
      have hpast := h4 hcin
      refine ⟨h1, h2, h3, ?_, h5, ?_, ?_, h8, h9⟩
      · intro _
        exact hpast
      · intro htt
        cases htt
      · intro _
        refine ⟨hext, ?_, hpast⟩
        show s.nSwap = 0
        simp only [preKA] at hpre
        omega

theorem inv_reach (o : Nat) {s : CState} (h : CReach o s) : CInv o s := by
  induction h with
  | refl => exact inv_init o
  | tail _ hbc ih => exact inv_step o ih hbc

theorem rtg_done_mono {s s' : CState}
    (h : Relation.ReflTransGen Step s s') :
    s.nDoneT + s.nDoneF ≤ s'.nDoneT + s'.nDoneF := by
  induction h with
  | refl => exact le_refl _
  | tail _ hbc ih =>
      refine le_trans ih ?_
      cases hbc <;> simp

/-- Claim C1: if `Track` has been called (the session starts in the
post-`Track` state) and some `Untrack` call has completed (returned), the
failure behavior never fires for this tracking session, regardless of any
subsequent garbage collection: every state reachable from the completion
point still has an unfired cleanup registration. -/
theorem untrack_completed_never_fires (o : Nat) (s s' : CState)
    (hre : CReach o s) (hdone : 0 < s.nDoneT + s.nDoneF)
    (hgc : Relation.ReflTransGen Step s s') : s'.tok ≠ .fired := by
  intro hf
  have hre' : CReach o s' := Relation.ReflTransGen.trans hre hgc
  obtain ⟨_, _, _, _, _, _, h7, _, _⟩ := inv_reach o hre'
  obtain ⟨_, _, hp⟩ := h7 hf
  have hd := rtg_done_mono hgc
  simp only [pastSwap] at hp
  omega

/-- Claim C2: for a handle tracked once, in any reachable state where all
`N ≥ 2` started `Untrack` calls have finished, none of them panicked (all
returned normally), exactly one of them observed the live cancellation token
via the atomic swap and cancelled it (the token is stopped, not fired, so
the cancellation side effect happened exactly once), the other `N - 1` found
the token already cleared yet still performed the group removal, and the
group membership count has decreased by exactly one (from `o + 1` after
`Track` to `o`). -/
theorem untrack_idempotent_effects (o N : Nat) (s : CState)
    (hre : CReach o s) (hN : 2 ≤ N)
    (hstart : totalThreads s = N) (hact : active s = 0) :
    s.nPanic = 0 ∧ s.nDoneT = 1 ∧ s.nDoneF = N - 1 ∧ s.tok = .stopped ∧
    s.hIn = false ∧ cGroupCount s = o := by
  obtain ⟨h1, h2, h3, h4, h5, h6, h7, h8, h9⟩ := inv_reach o hre
  simp only [totalThreads, pastSwap] at hstart
  simp only [active] at hact
  have hcin : s.cIn = false := by
    cases hcin : s.cIn with
    | false => rfl
    | true =>
        exfalso
        have h4' := h4 hcin
        simp only [pastSwap] at h4'
        omega
  have h5' := h5
  rw [hcin] at h5'
  simp at h5'
  simp only [tCount] at h5'
  have htok : s.tok = .stopped := by
    cases htok : s.tok with
    | stopped => rfl
    | armed =>
        exfalso
        cases h6 htok with
        | inl hl => rw [hcin] at hl; cases hl
        | inr hrr => omega
    | fired =>
        exfalso
        obtain ⟨_, _, hp⟩ := h7 htok
        simp only [pastSwap] at hp
        omega
  have hdone : 0 < s.nDoneT + s.nDoneF := by omega
  refine ⟨h2, by omega, by omega, htok, h9 hdone, ?_⟩
  simp [cGroupCount, h9 hdone, h3]

/-- Claim C9: when the collector-triggered failure behavior has fired for a
handle, the handle is still a member of its registry group and the group's
membership count is unchanged from the post-`Track` state: the failure path
(the cleanup function, which only builds the message and panics) removes
nothing from the group. -/
theorem fire_keeps_membership (o : Nat) (s : CState)
    (hre : CReach o s) (hf : s.tok = .fired) :
    s.hIn = true ∧ cGroupCount s = cGroupCount (cinit o) := by
  obtain ⟨h1, h2, h3, h4, h5, h6, h7, h8, h9⟩ := inv_reach o hre
  obtain ⟨he, hn, hp⟩ := h7 hf
  simp only [pastSwap] at hp
  have hin : s.hIn = true := by
    cases hin : s.hIn with
    | true => rfl
    | false =>
        exfalso
        have := h8 hin
        omega
  refine ⟨hin, ?_⟩
  simp [cGroupCount, hin, h3, cinit]

theorem creach_cDone : CReach 0 cDone := by
  have s1 : Step (cinit 0) c1 := Step.start (cinit 0) rfl
  have s2 : Step c1 c2 := Step.swapT c1 (by decide) rfl
  have s3 : Step c2 c3 := Step.stopT c2 (by decide)
  have s4 : Step c3 c4 := Step.kaT c3 (by decide)
  have s5 : Step c4 c5 := Step.lookOkT c4 (by decide) rfl
  have s6 : Step c5 cDone := Step.remT c5 (by decide)
  exact Relation.ReflTransGen.tail (Relation.ReflTransGen.tail
    (Relation.ReflTransGen.tail (Relation.ReflTransGen.tail
      (Relation.ReflTransGen.tail (Relation.ReflTransGen.tail
        Relation.ReflTransGen.refl s1) s2) s3) s4) s5) s6

theorem untrack_completed_never_fires_witness :
    ({ cDone with ext := false } : CState).tok ≠ .fired :=
  untrack_completed_never_fires 0 cDone { cDone with ext := false }
    creach_cDone (by decide)
    (Relation.ReflTransGen.tail Relation.ReflTransGen.refl
      (Step.dropExt cDone))

theorem creach_dDone : CReach 0 dDone := by
  have s7 : Step cDone d1 := Step.start cDone rfl
  have s8 : Step d1 d2 := Step.swapF d1 (by decide) rfl
  have s9 : Step d2 d3 := Step.stopF d2 (by decide)
  have s10 : Step d3 d4 := Step.kaF d3 (by decide)
  have s11 : Step d4 d5 := Step.lookOkF d4 (by decide) rfl
  have s12 : Step d5 dDone := Step.remF d5 (by decide)
  exact Relation.ReflTransGen.tail (Relation.ReflTransGen.tail
    (Relation.ReflTransGen.tail (Relation.ReflTransGen.tail
      (Relation.ReflTransGen.tail (Relation.ReflTransGen.tail
        creach_cDone s7) s8) s9) s10) s11) s12

theorem untrack_idempotent_effects_witness :
    dDone.nPanic = 0 ∧ dDone.nDoneT = 1 ∧ dDone.nDoneF = 2 - 1 ∧
    dDone.tok = .stopped ∧ dDone.hIn = false ∧ cGroupCount dDone = 0 :=
  untrack_idempotent_effects 0 2 dDone creach_dDone (by decide)
    (by decide) (by decide)

theorem fire_keeps_membership_witness :
    ({ cinit 0 with ext := false, tok := .fired } : CState).hIn = true ∧
    cGroupCount { cinit 0 with ext := false, tok := .fired } =
      cGroupCount (cinit 0) := by
  have hre : CReach 0 { cinit 0 with ext := false, tok := .fired } := by
    refine Relation.ReflTransGen.tail (Relation.ReflTransGen.tail
      Relation.ReflTransGen.refl (Step.dropExt (cinit 0))) ?_
    exact Step.fire { cinit 0 with ext := false } (by decide) rfl
  exact fire_keeps_membership 0 _ hre rfl
